import Mathlib

/-!
Verification of the transport/session layer of the `boinc-rpc` client
library against its natural-language specification.

The Rust sources are embedded shallowly:

* `Element` models `treexml::Element` restricted to the fields the verified
  code paths read or write (`name`, `text`, `children`); attributes and
  cdata are neither produced nor consumed by any embedded function.
* `Error` mirrors `errors::Error` (src/errors.rs).
* `verifyRpcReplyContents` mirrors `verify_rpc_reply_contents`
  (src/lib.rs:36-67).
* An executable MD5 and the nonce hash mirror `compute_nonce_hash`
  (src/rpc.rs:17-21, the digest itself provided by the external
  `rust-crypto` dependency, embedded here from the MD5 standard).
* `authExec` mirrors `DaemonStream::authenticate` (src/rpc.rs:130-194).
* `BoincCodec.encodeBytes`/`BoincCodec.decodeStep` mirror the
  `Encoder`/`Decoder` impls (src/rpc.rs:46-117); the external `treexml`
  serializer and parser are modelled by `serElem`/`parseElems`.
* `pollReadyStep`, `callStep` and `clientCallOnce` mirror the
  `tower::Service` impl for `Transport` (src/lib.rs:302-352).
-/

/-- Models `errors::Error` (src/errors.rs:1-13): a closed error taxonomy. -/
inductive Error where
  | ConnectError (msg : String)
  | DataParseError (msg : String)
  | InvalidPasswordError (msg : String)
  | DaemonError (msg : String)
  | NullError (msg : String)
  | NetworkError (msg : String)
  | StatusError (code : Int)
  | AuthError (msg : String)
  | InvalidURLError (msg : String)
  | AlreadyAttachedError (msg : String)
  deriving DecidableEq, Repr

/-- Models `treexml::Element` restricted to the fields the embedded code
reads or writes: tag name, optional text content, ordered children. -/
inductive Element where
  | mk (name : String) (text : Option String) (children : List Element)
  deriving Repr

def Element.name : Element → String
  | .mk n _ _ => n

def Element.text : Element → Option String
  | .mk _ t _ => t

def Element.children : Element → List Element
  | .mk _ _ cs => cs

mutual

def Element.beq : Element → Element → Bool
  | .mk n1 t1 cs1, .mk n2 t2 cs2 => n1 == n2 && t1 == t2 && Element.beqList cs1 cs2

def Element.beqList : List Element → List Element → Bool
  | [], [] => true
  | a :: as, b :: bs => Element.beq a b && Element.beqList as bs
  | _, _ => false

end

mutual

theorem Element.beq_iff : ∀ a b : Element, Element.beq a b = true ↔ a = b
  | .mk n1 t1 cs1, .mk n2 t2 cs2 => by
    simp only [Element.beq, Bool.and_eq_true, beq_iff_eq, Element.mk.injEq]
    rw [and_assoc, Element.beqList_iff cs1 cs2]

theorem Element.beqList_iff : ∀ a b : List Element, Element.beqList a b = true ↔ a = b
  | [], [] => by simp [Element.beqList]
  | [], _ :: _ => by simp [Element.beqList]
  | _ :: _, [] => by simp [Element.beqList]
  | a :: as, b :: bs => by
    simp only [Element.beqList, Bool.and_eq_true, List.cons.injEq]
    rw [Element.beq_iff a b, Element.beqList_iff as bs]

end

instance : DecidableEq Element := fun a b =>
  decidable_of_iff (Element.beq a b = true) (Element.beq_iff a b)

/-- Models `treexml::Element::new`: an element with no text and no children. -/
def Element.new (n : String) : Element := .mk n none []

/-- Models Rust `str::parse::<i32>` as used by `util::eval_node_contents`
(src/util.rs:13-21): an optional sign followed by at least one ASCII digit,
rejecting any other character and values outside the `i32` range. -/
def parseI32 (s : String) : Option Int :=
  let cs := s.data
  let signed : Int × List Char :=
    match cs with
    | '+' :: r => (1, r)
    | '-' :: r => (-1, r)
    | r => (1, r)
  let sign := signed.1
  let ds := signed.2
  if ds.isEmpty then none
  else if ds.all Char.isDigit then
    let n : Nat := ds.foldl (fun a c => a * 10 + (c.toNat - 48)) 0
    let v : Int := sign * (n : Int)
    if -(2 ^ 31) ≤ v ∧ v < 2 ^ 31 then some v else none
  else none

/-- Models `util::eval_node_contents::<i32>` (src/util.rs:13-21): parse the
node's text, `none` when there is no text or parsing fails. -/
def evalNodeContentsI32 (node : Element) : Option Int :=
  match node.text with
  | some v => parseI32 v
  | none => none

/-- Models the `error` arm of `verify_rpc_reply_contents` (src/lib.rs:49-62):
classification of the error element's text by exact string match. -/
def classifyErrorText (msg : String) : Error :=
  if msg = "unauthorized" then .AuthError msg
  else if msg = "Missing authenticator" then .AuthError msg
  else if msg = "Missing URL" then .InvalidURLError msg
  else if msg = "Already attached to project" then .AlreadyAttachedError msg
  else .DataParseError msg

/-- Models the loop of `verify_rpc_reply_contents` (src/lib.rs:36-67) with
the `success` flag as an accumulator. -/
def verifyLoop (success : Bool) : List Element → Except Error Bool
  | [] => .ok success
  | node :: rest =>
    if node.name = "success" then verifyLoop true rest
    else if node.name = "status" then
      .error (.StatusError ((evalNodeContentsI32 node).getD 9999))
    else if node.name = "unauthorized" then
      .error (.AuthError "")
    else if node.name = "error" then
      match node.text with
      | none => .error (.DaemonError "Unknown error")
      | some msg => .error (classifyErrorText msg)
    else verifyLoop success rest

/-- Models `verify_rpc_reply_contents` (src/lib.rs:36-67). -/
def verifyRpcReplyContents (data : List Element) : Except Error Bool :=
  verifyLoop false data

/-- A child whose tag aborts reply validation with an error. -/
def disqualifying (e : Element) : Bool :=
  e.name = "status" || e.name = "unauthorized" || e.name = "error"

/-- The error reported for the first disqualifying child, per the claim. -/
def classifyChild (e : Element) : Error :=
  if e.name = "status" then .StatusError ((evalNodeContentsI32 e).getD 9999)
  else if e.name = "unauthorized" then .AuthError ""
  else
    match e.text with
    | none => .DaemonError "Unknown error"
    | some msg => classifyErrorText msg

/-- Reply validation as the specification states it: the result is decided
by the first disqualifying child if one exists, else by the presence of a
`success` child. -/
def verifySpec (data : List Element) : Except Error Bool :=
  match data.find? disqualifying with
  | some e => .error (classifyChild e)
  | none => if data.any (fun e => e.name = "success") then .ok true else .ok false

theorem verifyLoop_eq_spec (data : List Element) (s : Bool) :
    verifyLoop s data =
      match data.find? disqualifying with
      | some e => .error (classifyChild e)
      | none => .ok (s || data.any (fun e => e.name = "success")) := by
  induction data generalizing s with
  | nil => simp [verifyLoop]
  | cons node rest ih =>
    by_cases hsucc : node.name = "success"
    · have hd : disqualifying node = false := by
        simp [disqualifying, hsucc]
      simp [verifyLoop, hsucc, List.find?, hd, ih, List.any_cons]
    · by_cases hst : node.name = "status"
      · have hd : disqualifying node = true := by simp [disqualifying, hst]
        simp [verifyLoop, hsucc, hst, List.find?, hd, classifyChild]
      · by_cases hun : node.name = "unauthorized"
        · have hd : disqualifying node = true := by simp [disqualifying, hun]
          simp [verifyLoop, hsucc, hst, hun, List.find?, hd, classifyChild]
        · by_cases herr : node.name = "error"
          · have hd : disqualifying node = true := by simp [disqualifying, herr]
            cases ht : node.text with
            | none =>
              simp [verifyLoop, hsucc, hst, hun, herr, List.find?, hd,
                classifyChild, ht]
            | some msg =>
              simp [verifyLoop, hsucc, hst, hun, herr, List.find?, hd,
                classifyChild, ht]
          · have hd : disqualifying node = false := by
              simp [disqualifying, hst, hun, herr]
            simp [verifyLoop, hsucc, hst, hun, herr, List.find?, hd, ih,
              List.any_cons]

/-- C1. Reply validation returns `Ok(true)` iff a `success` child was seen
and no disqualifying child aborted first, `Ok(false)` when none of the
recognized tags appear, and otherwise the error of the first disqualifying
child, classified per the source's match arms. -/
theorem c1_verify_rpc_reply_contents (data : List Element) :
    verifyRpcReplyContents data = verifySpec data ∧
      (verifyRpcReplyContents data = .ok false ↔
        ∀ e ∈ data, e.name ≠ "success" ∧ e.name ≠ "status" ∧
          e.name ≠ "unauthorized" ∧ e.name ≠ "error") := by
  have h := verifyLoop_eq_spec data false
  rw [verifyRpcReplyContents] at *
  cases hf : data.find? disqualifying with
  | some e =>
    rw [hf] at h
    have he : e ∈ data := List.mem_of_find?_eq_some hf
    have hd : disqualifying e = true := List.find?_some hf
    refine ⟨by rw [h, verifySpec, hf], ?_⟩
    constructor
    · intro hok
      rw [h] at hok
      exact Except.noConfusion hok
    · intro hall
      obtain ⟨-, n1, n2, n3⟩ := hall e he
      simp [disqualifying, n1, n2, n3] at hd
  | none =>
    rw [hf] at h
    have hnone := List.find?_eq_none.mp hf
    cases hany : data.any (fun e => e.name = "success") with
    | true =>
      rw [hany] at h
      refine ⟨by rw [h, verifySpec, hf, hany]; rfl, ?_⟩
      constructor
      · intro hok
        rw [h] at hok
        have : (true : Bool) = false := Except.ok.inj hok
        exact Bool.noConfusion this
      · intro hall
        obtain ⟨e, he, hs⟩ := List.any_eq_true.mp hany
        exact absurd (of_decide_eq_true hs) (hall e he).1
    | false =>
      rw [hany] at h
      refine ⟨by rw [h, verifySpec, hf, hany]; rfl, ?_⟩
      constructor
      · intro _ e he
        have hd : ¬ disqualifying e = true := hnone e he
        have h1 : e.name ≠ "status" := fun hh => hd (by simp [disqualifying, hh])
        have h2 : e.name ≠ "unauthorized" := fun hh => hd (by simp [disqualifying, hh])
        have h3 : e.name ≠ "error" := fun hh => hd (by simp [disqualifying, hh])
        have hs : e.name ≠ "success" := by
          intro hsn
          have := List.any_eq_false.mp hany e he
          simp [hsn] at this
        exact ⟨hs, h1, h2, h3⟩
      · intro _
        rw [h]
        rfl

/-!
MD5, embedded from the standard (RFC 1321). The Rust source obtains this
digest from the external `rust-crypto` crate (`crypto::md5::Md5`,
src/rpc.rs:17-21); the algorithm itself is fixed by the standard, so it is
reproduced here executably over byte lists.
-/

/-- The 64 MD5 sine-derived round constants. -/
def md5K : List Nat := [
  0xd76aa478, 0xe8c7b756, 0x242070db, 0xc1bdceee,
  0xf57c0faf, 0x4787c62a, 0xa8304613, 0xfd469501,
  0x698098d8, 0x8b44f7af, 0xffff5bb1, 0x895cd7be,
  0x6b901122, 0xfd987193, 0xa679438e, 0x49b40821,
  0xf61e2562, 0xc040b340, 0x265e5a51, 0xe9b6c7aa,
  0xd62f105d, 0x02441453, 0xd8a1e681, 0xe7d3fbc8,
  0x21e1cde6, 0xc33707d6, 0xf4d50d87, 0x455a14ed,
  0xa9e3e905, 0xfcefa3f8, 0x676f02d9, 0x8d2a4c8a,
  0xfffa3942, 0x8771f681, 0x6d9d6122, 0xfde5380c,
  0xa4beea44, 0x4bdecfa9, 0xf6bb4b60, 0xbebfbc70,
  0x289b7ec6, 0xeaa127fa, 0xd4ef3085, 0x04881d05,
  0xd9d4d039, 0xe6db99e5, 0x1fa27cf8, 0xc4ac5665,
  0xf4292244, 0x432aff97, 0xab9423a7, 0xfc93a039,
  0x655b59c3, 0x8f0ccc92, 0xffeff47d, 0x85845dd1,
  0x6fa87e4f, 0xfe2ce6e0, 0xa3014314, 0x4e0811a1,
  0xf7537e82, 0xbd3af235, 0x2ad7d2bb, 0xeb86d391]

/-- The per-round left-rotation amounts of MD5. -/
def md5S : List Nat := [
  7, 12, 17, 22, 7, 12, 17, 22, 7, 12, 17, 22, 7, 12, 17, 22,
  5, 9, 14, 20, 5, 9, 14, 20, 5, 9, 14, 20, 5, 9, 14, 20,
  4, 11, 16, 23, 4, 11, 16, 23, 4, 11, 16, 23, 4, 11, 16, 23,
  6, 10, 15, 21, 6, 10, 15, 21, 6, 10, 15, 21, 6, 10, 15, 21]

/-- Bitwise complement on 32-bit words represented as `Nat`. -/
def notU32 (x : Nat) : Nat := 0xffffffff - x % 0x100000000

/-- Left rotation on 32-bit words represented as `Nat`. -/
def rotlU32 (x s : Nat) : Nat :=
  ((x % 0x100000000) <<< s) % 0x100000000 + (x % 0x100000000) >>> (32 - s)

/-- The MD5 round mixing function, by round index. -/
def md5F (i b c d : Nat) : Nat :=
  if i < 16 then (b &&& c) ||| (notU32 b &&& d)
  else if i < 32 then (d &&& b) ||| (notU32 d &&& c)
  else if i < 48 then (b ^^^ c) ^^^ d
  else c ^^^ (b ||| notU32 d)

/-- The MD5 message-word schedule, by round index. -/
def md5G (i : Nat) : Nat :=
  if i < 16 then i
  else if i < 32 then (5 * i + 1) % 16
  else if i < 48 then (3 * i + 5) % 16
  else (7 * i) % 16

/-- One MD5 round: rotate the register file and mix one message word. -/
def md5Round (m : List Nat) (st : Nat × Nat × Nat × Nat) (i : Nat) :
    Nat × Nat × Nat × Nat :=
  let a := st.1
  let b := st.2.1
  let c := st.2.2.1
  let d := st.2.2.2
  let f := (md5F i b c d + a + md5K.getD i 0 + m.getD (md5G i) 0) % 0x100000000
  (d, (b + rotlU32 f (md5S.getD i 0)) % 0x100000000, b, c)

/-- Little-endian bytes of a `Nat`, `k` bytes wide. -/
def leBytes (k n : Nat) : List Nat :=
  (List.range k).map (fun i => n / 256 ^ i % 256)

/-- Group 64 little-endian bytes into 16 32-bit words. -/
def md5Words : List Nat → List Nat
  | b0 :: b1 :: b2 :: b3 :: rest =>
    (b0 + 256 * b1 + 65536 * b2 + 16777216 * b3) :: md5Words rest
  | _ => []

/-- MD5 padding: `0x80`, zeros to 56 mod 64, then the bit length as a
64-bit little-endian quantity. -/
def md5Pad (msg : List Nat) : List Nat :=
  let z := (119 - msg.length % 64) % 64
  msg ++ [128] ++ List.replicate z 0 ++ leBytes 8 ((8 * msg.length) % 2 ^ 64)

/-- Split a byte list into 64-byte chunks; `fuel` bounds the recursion. -/
def md5Chunks : Nat → List Nat → List (List Nat)
  | 0, _ => []
  | _ + 1, [] => []
  | fuel + 1, l => l.take 64 :: md5Chunks fuel (l.drop 64)

/-- The MD5 digest of a byte list, as 16 bytes. -/
def md5Bytes (msg : List Nat) : List Nat :=
  let padded := md5Pad msg
  let blocks := md5Chunks padded.length padded
  let final := blocks.foldl
    (fun h blk =>
      let m := md5Words blk
      let st := (List.range 64).foldl (md5Round m) h
      ((h.1 + st.1) % 0x100000000, (h.2.1 + st.2.1) % 0x100000000,
        (h.2.2.1 + st.2.2.1) % 0x100000000, (h.2.2.2 + st.2.2.2) % 0x100000000))
    (0x67452301, 0xefcdab89, 0x98badcfe, 0x10325476)
  leBytes 4 final.1 ++ leBytes 4 final.2.1 ++ leBytes 4 final.2.2.1 ++
    leBytes 4 final.2.2.2

/-- One lowercase hex digit. -/
def hexDigit (n : Nat) : Char :=
  if n < 10 then Char.ofNat (48 + n) else Char.ofNat (87 + n)

/-- Lowercase hex encoding of a byte list. -/
def bytesToHex (bs : List Nat) : String :=
  String.mk ((bs.map (fun b => [hexDigit (b / 16 % 16), hexDigit (b % 16)])).flatten)

/-- Lowercase hex MD5 digest of a string's bytes (all inputs used by the
embedded code are ASCII, so byte values are the code points). -/
def md5hex (s : String) : String := bytesToHex (md5Bytes (s.data.map Char.toNat))

/-- Models `compute_nonce_hash` (src/rpc.rs:17-21): the digest of the nonce
concatenated before the password. -/
def computeNonceHash (pass nonce : String) : String := md5hex (nonce ++ pass)

set_option maxRecDepth 10000

/-!
Handshake: `DaemonStream::authenticate` (src/rpc.rs:130-194), embedded as
an executor over a script of responder reply frames. A frame is the child
list of a decoded envelope, exactly what `conn.try_next()` yields. The
executor records every frame the client sends, the final outcome
(`Ok ()` standing for the `Ready` authenticated stream), and a flag set at
the one dispatch point where a `nonce` child is seen while `nonce_sent`
is already true.
-/

/-- The error text of the duplicate-nonce branch (src/rpc.rs:149-151). -/
def dupNonceMsg : String := "Daemon requested nonce again - could be a bug"

/-- Models Rust `format!("{:?}", node.text)` on an `Option<String>`. -/
def optTextDebug : Option String → String
  | none => "None"
  | some t => "Some(\"" ++ t ++ "\")"

/-- The `auth2` frame built in the `nonce` arm (src/rpc.rs:153-167). -/
def auth2Frame (pass nonceText : String) : Element :=
  .mk "auth2" none [.mk "nonce_hash" (some (computeNonceHash pass nonceText)) []]

/-- Outcome of dispatching the children of one received frame. -/
inductive AuthStep where
  | ret (r : Except Error Unit) (dup : Bool)
  | cont (nonceSent : Bool) (out : Option (List Element))

/-- Models the `for node in data` dispatch of `authenticate`
(src/rpc.rs:145-189): every arm except `nonce` returns; the `nonce` arm
prepares the `auth2` frame and continues over the remaining children. -/
def procNodes (password : Option String) :
    Bool → Option (List Element) → List Element → AuthStep
  | ns, out, [] => .cont ns out
  | ns, _, node :: rest =>
    if node.name = "nonce" then
      if ns then .ret (.error (.DaemonError dupNonceMsg)) true
      else
        match password with
        | none => .ret (.error (.AuthError "Password required for nonce")) false
        | some pwd =>
          match node.text with
          | none => .ret (.error (.AuthError "Invalid nonce")) false
          | some ntext => procNodes password true (some [auth2Frame pwd ntext]) rest
    else if node.name = "unauthorized" then
      .ret (.error (.AuthError "unauthorized")) false
    else if node.name = "error" then
      .ret (.error (.DaemonError
        ("BOINC daemon returned error: " ++ optTextDebug node.text))) false
    else if node.name = "authorized" then
      .ret (.ok ()) false
    else
      .ret (.error (.DaemonError
        ("Invalid response from daemon: " ++ node.name))) false

instance {ε α : Type} [DecidableEq ε] [DecidableEq α] : DecidableEq (Except ε α) :=
  fun x y =>
  match x, y with
  | .ok a, .ok b =>
    if h : a = b then isTrue (by rw [h]) else isFalse (fun hh => h (Except.ok.inj hh))
  | .error a, .error b =>
    if h : a = b then isTrue (by rw [h]) else isFalse (fun hh => h (Except.error.inj hh))
  | .ok _, .error _ => isFalse (fun hh => Except.noConfusion hh)
  | .error _, .ok _ => isFalse (fun hh => Except.noConfusion hh)

/-- Execution record of one handshake run. -/
structure AuthTrace where
  sent : List (List Element)
  result : Except Error Unit
  dupNonce : Bool
  deriving DecidableEq

/-- Models the main loop of `authenticate` (src/rpc.rs:136-193): take the
pending outbound frame (none left means the `else` branch's
"Empty response" error), send it, consume one reply frame from the script
(an exhausted script is the `EOF` error), and dispatch its children. -/
def authLoop (password : Option String) :
    Option (List Element) → Bool → List (List Element) → List (List Element) → AuthTrace
  | none, _, _, sent => ⟨sent, .error (.DaemonError "Empty response"), false⟩
  | some data, ns, input, sent =>
    match input with
    | [] => ⟨sent ++ [data], .error (.DaemonError "EOF"), false⟩
    | frame :: rest =>
      match procNodes password ns none frame with
      | .ret r dup => ⟨sent ++ [data], r, dup⟩
      | .cont ns' out' => authLoop password out' ns' rest (sent ++ [data])

/-- Models `authenticate` (src/rpc.rs:130-194) run against a reply script:
the first outbound frame is a single empty `auth1` element. -/
def authExec (password : Option String) (input : List (List Element)) : AuthTrace :=
  authLoop password (some [Element.new "auth1"]) false input []

/-- A sent frame carrying an `auth2` child (a nonce-hash attempt). -/
def isAuth2Frame (f : List Element) : Bool :=
  f.any (fun e => e.name = "auth2")

/-- How many sent frames carry an `auth2` child. -/
def countAuth2 (sent : List (List Element)) : Nat :=
  (sent.filter isAuth2Frame).length

/-- C2. Handshake happy path: against a responder replying
`<nonce>abc123</nonce>` then `<authorized/>`, with password `"secret"`,
the client sends exactly two frames — a single empty `auth1` child, then
one `auth2` child holding one `nonce_hash` child whose text is the
lowercase hex MD5 of the nonce concatenated before the password — and the
handshake ends successfully (the `Ready` state). -/
theorem c2_handshake_happy_path :
    authExec (some "secret")
        [[Element.mk "nonce" (some "abc123") []], [Element.new "authorized"]] =
      ⟨[[Element.new "auth1"],
        [Element.mk "auth2" none
          [Element.mk "nonce_hash" (some (md5hex "abc123secret")) []]]],
       .ok (), false⟩ ∧
    md5hex "abc123secret" = "38d4588fdbc729ba5f07c49b42d195a0" := by
  constructor
  · decide
  · decide


/-- Contribution of the pending outbound frame to the count of sent
nonce-hash frames. -/
def outAuth2 : Option (List Element) → Nat
  | some f => if isAuth2Frame f then 1 else 0
  | none => 0

theorem procNodes_cont :
    ∀ (nodes : List Element) (pwd : Option String) (b : Bool)
      (out0 : Option (List Element)) (b' : Bool) (out1 : Option (List Element)),
      procNodes pwd b out0 nodes = .cont b' out1 →
      (out1 = out0 ∧ b' = b) ∨
        (b = false ∧ b' = true ∧ ∃ p t, out1 = some [auth2Frame p t]) := by
  intro nodes
  induction nodes with
  | nil =>
    intro pwd b out0 b' out1 h
    simp only [procNodes] at h
    obtain ⟨h1, h2⟩ := AuthStep.cont.inj h
    exact Or.inl ⟨h2.symm, h1.symm⟩
  | cons node rest ih =>
    intro pwd b out0 b' out1 h
    simp only [procNodes] at h
    by_cases hn : node.name = "nonce"
    · rw [if_pos hn] at h
      cases b with
      | true => exact AuthStep.noConfusion h
      | false =>
        rw [if_neg (by simp)] at h
        cases pwd with
        | none => exact AuthStep.noConfusion h
        | some p =>
          cases ht : node.text with
          | none => rw [ht] at h; exact AuthStep.noConfusion h
          | some t =>
            rw [ht] at h
            rcases ih (some p) true (some [auth2Frame p t]) b' out1 h with
              ⟨h1, h2⟩ | ⟨h1, -, -⟩
            · exact Or.inr ⟨rfl, h2, p, t, h1⟩
            · exact Bool.noConfusion h1
    · rw [if_neg hn] at h
      by_cases h1 : node.name = "unauthorized"
      · rw [if_pos h1] at h; exact AuthStep.noConfusion h
      · rw [if_neg h1] at h
        by_cases h2 : node.name = "error"
        · rw [if_pos h2] at h; exact AuthStep.noConfusion h
        · rw [if_neg h2] at h
          by_cases h3 : node.name = "authorized"
          · rw [if_pos h3] at h; exact AuthStep.noConfusion h
          · rw [if_neg h3] at h; exact AuthStep.noConfusion h

theorem procNodes_dup :
    ∀ (nodes : List Element) (pwd : Option String) (b : Bool)
      (out0 : Option (List Element)) (r : Except Error Unit),
      procNodes pwd b out0 nodes = .ret r true →
      r = .error (.DaemonError dupNonceMsg) := by
  intro nodes
  induction nodes with
  | nil =>
    intro pwd b out0 r h
    simp only [procNodes] at h
    exact AuthStep.noConfusion h
  | cons node rest ih =>
    intro pwd b out0 r h
    simp only [procNodes] at h
    by_cases hn : node.name = "nonce"
    · rw [if_pos hn] at h
      cases b with
      | true =>
        rw [if_pos rfl] at h
        exact ((AuthStep.ret.inj h).1).symm
      | false =>
        rw [if_neg (by simp)] at h
        cases pwd with
        | none => exact Bool.noConfusion (AuthStep.ret.inj h).2
        | some p =>
          cases ht : node.text with
          | none => rw [ht] at h; exact Bool.noConfusion (AuthStep.ret.inj h).2
          | some t => rw [ht] at h; exact ih (some p) true (some [auth2Frame p t]) r h
    · rw [if_neg hn] at h
      by_cases h1 : node.name = "unauthorized"
      · rw [if_pos h1] at h; exact Bool.noConfusion (AuthStep.ret.inj h).2
      · rw [if_neg h1] at h
        by_cases h2 : node.name = "error"
        · rw [if_pos h2] at h; exact Bool.noConfusion (AuthStep.ret.inj h).2
        · rw [if_neg h2] at h
          by_cases h3 : node.name = "authorized"
          · rw [if_pos h3] at h; exact Bool.noConfusion (AuthStep.ret.inj h).2
          · rw [if_neg h3] at h; exact Bool.noConfusion (AuthStep.ret.inj h).2

theorem countAuth2_append (sent : List (List Element)) (f : List Element) :
    countAuth2 (sent ++ [f]) =
      countAuth2 sent + (if isAuth2Frame f then 1 else 0) := by
  by_cases h : isAuth2Frame f <;>
    simp [countAuth2, List.filter_append, h]

theorem authLoop_invariant (pwd : Option String) :
    ∀ (input : List (List Element)) (ns : Bool) (out : Option (List Element))
      (sent : List (List Element)),
      countAuth2 sent + outAuth2 out ≤ 1 →
      (ns = false →
        countAuth2 sent = 0 ∧ ∀ f, out = some f → isAuth2Frame f = false) →
      countAuth2 (authLoop pwd out ns input sent).sent ≤ 1 ∧
        ((authLoop pwd out ns input sent).dupNonce = true →
          (authLoop pwd out ns input sent).result =
            .error (.DaemonError dupNonceMsg)) := by
  intro input
  induction input with
  | nil =>
    intro ns out sent h1 _
    cases out with
    | none =>
      refine ⟨?_, ?_⟩
      · simpa [authLoop, outAuth2] using h1
      · intro h
        simp [authLoop] at h
    | some data =>
      refine ⟨?_, ?_⟩
      · simp only [authLoop, countAuth2_append]
        simpa [outAuth2] using h1
      · intro h
        simp [authLoop] at h
  | cons frame rest ih =>
    intro ns out sent h1 h2
    cases out with
    | none =>
      refine ⟨?_, ?_⟩
      · simpa [authLoop, outAuth2] using h1
      · intro h
        simp [authLoop] at h
    | some data =>
      simp only [authLoop]
      cases hp : procNodes pwd ns none frame with
      | ret r dup =>
        refine ⟨?_, ?_⟩
        · rw [countAuth2_append]
          simpa [outAuth2] using h1
        · intro hd
          cases hd
          exact procNodes_dup frame pwd ns none r hp
      | cont ns' out' =>
        rcases procNodes_cont frame pwd ns none ns' out' hp with
          ⟨ho, hb⟩ | ⟨hb, hb', p, t, ho⟩
        · subst ho hb
          apply ih
          · rw [countAuth2_append]
            simpa [outAuth2] using h1
          · intro hns
            obtain ⟨hc, hf⟩ := h2 hns
            refine ⟨?_, ?_⟩
            · rw [countAuth2_append, hc, hf data rfl]
              simp
            · intro f hf'
              exact Option.noConfusion hf'
        · subst hb hb' ho
          obtain ⟨hc, hf⟩ := h2 rfl
          apply ih
          · rw [countAuth2_append, hc, hf data rfl]
            simp [outAuth2, isAuth2Frame, auth2Frame, Element.name]
          · intro h
            exact Bool.noConfusion h

/-- C3. Whenever the handshake dispatches a `nonce` child after a nonce has
already been seen in the same handshake, it fails with the daemon-level
duplicate-nonce error, and over the whole run at most one frame carrying a
nonce hash (`auth2`) is ever sent — a second hash is never sent. -/
theorem c3_duplicate_nonce (pwd : Option String) (input : List (List Element))
    (h : (authExec pwd input).dupNonce = true) :
    (authExec pwd input).result = .error (.DaemonError dupNonceMsg) ∧
      countAuth2 (authExec pwd input).sent ≤ 1 := by
  have hinv := authLoop_invariant pwd input false (some [Element.new "auth1"]) []
    (by simp [countAuth2, outAuth2, isAuth2Frame, Element.new, Element.name])
    (by
      intro _
      refine ⟨by simp [countAuth2], ?_⟩
      intro f hf
      cases Option.some.inj hf
      simp [isAuth2Frame, Element.new, Element.name])
  exact ⟨hinv.2 h, hinv.1⟩

/-- C3 witness: a responder that issues a nonce twice trips the
duplicate-nonce dispatch, the handshake fails with the daemon-level error,
and at most one nonce-hash frame was sent. -/
theorem c3_duplicate_nonce_witness :
    (authExec (some "p")
        [[Element.mk "nonce" (some "a") []],
          [Element.mk "nonce" (some "b") []]]).dupNonce = true ∧
      ((authExec (some "p")
          [[Element.mk "nonce" (some "a") []],
            [Element.mk "nonce" (some "b") []]]).result =
          .error (.DaemonError dupNonceMsg) ∧
        countAuth2 (authExec (some "p")
          [[Element.mk "nonce" (some "a") []],
            [Element.mk "nonce" (some "b") []]]).sent ≤ 1) :=
  ⟨by decide,
    c3_duplicate_nonce (some "p")
      [[Element.mk "nonce" (some "a") []], [Element.mk "nonce" (some "b") []]]
      (by decide)⟩

/-!
Wire codec: `BoincCodec` (src/rpc.rs:23-117). The external `treexml`
serializer (`format!("{}", out)`, an XML writer) and parser
(`treexml::Document::parse`, used through `util::parse_node`,
src/util.rs:5-11) are modelled by `serElem` and `parseElems` below.
`serElem` produces the text after the two rewrites `BoincCodec::encode`
applies to the writer's output (dropping the `<?xml version='1.0'?>`
prologue and tightening `" />"` to `"/>"`, src/rpc.rs:104-106), so empty
elements serialize as `<name/>` and no prologue is emitted. `parseElems`
is a recursive-descent parser for that grammar; inputs that are not a
single well-formed document map to the parse failure `parse_node`
surfaces as a data-parse error.
-/

/-- Characters accepted in an element name (ASCII letters, digits, `_`:
every tag name the embedded code exchanges is of this shape). -/
def nameChar (c : Char) : Bool := c.isAlpha || c.isDigit || c = '_'

/-- ASCII-safe text characters: printable ASCII excluding XML markup. -/
def textChar (c : Char) : Bool :=
  32 ≤ c.toNat && c.toNat < 127 && c ≠ '<' && c ≠ '>' && c ≠ '&'

mutual

/-- ASCII-safe elements: a nonempty well-formed name, and either no text
with ASCII-safe children, or nonempty ASCII-safe text and no children. -/
def safeElem : Element → Bool
  | .mk n t cs =>
    (!n.data.isEmpty && n.data.all nameChar) &&
      (match t with
       | none => safeList cs
       | some s => !s.data.isEmpty && s.data.all textChar && cs.isEmpty)

/-- ASCII-safety of a list of elements. -/
def safeList : List Element → Bool
  | [] => true
  | e :: es => safeElem e && safeList es

end

/-- The closing tag of an element name. -/
def closeTag (n : String) : List Char := '<' :: '/' :: n.data ++ ['>']

mutual

/-- Models the external XML writer composed with the encoder's rewrites:
`<name/>` for an empty element, otherwise text then children between an
opening and a closing tag. -/
def serElem : Element → List Char
  | .mk n t cs =>
    match t, cs with
    | none, [] => '<' :: n.data ++ ['/', '>']
    | none, c :: cs' => '<' :: n.data ++ '>' :: serList (c :: cs') ++ closeTag n
    | some s, cs => '<' :: n.data ++ '>' :: (s.data ++ serList cs) ++ closeTag n

/-- Serialization of a sequence of sibling elements. -/
def serList : List Element → List Char
  | [] => []
  | e :: es => serElem e ++ serList es

end

mutual

/-- Number of element nodes in a tree (a recursion budget measure). -/
def sizeE : Element → Nat
  | .mk _ _ cs => 1 + sizeL cs

/-- Number of element nodes in a forest. -/
def sizeL : List Element → Nat
  | [] => 0
  | e :: es => sizeE e + sizeL es

end

/-- Consume an exact literal prefix, returning the remainder. -/
def eatStr : List Char → List Char → Option (List Char)
  | [], r => some r
  | _ :: _, [] => none
  | c :: cs, d :: ds => if c = d then eatStr cs ds else none

/-- Recursive-descent parser for a sequence of sibling elements, modelling
the external XML parser. It stops successfully before a closing tag or at
any position where no element starts; `fuel` bounds the recursion. -/
def parseElems : Nat → List Char → Option (List Element × List Char)
  | 0, _ => none
  | fuel + 1, input =>
    match input with
    | [] => some ([], [])
    | c :: rest =>
      if c = '<' then
        match rest with
        | [] => none
        | d :: _ =>
          if d = '/' then some ([], input)
          else
            let nm := rest.takeWhile nameChar
            let rest1 := rest.dropWhile nameChar
            if nm.isEmpty then none
            else
              match rest1 with
              | [] => none
              | a :: rest2 =>
                if a = '/' then
                  match rest2 with
                  | [] => none
                  | b :: rest3 =>
                    if b = '>' then
                      match parseElems fuel rest3 with
                      | some (es, r) => some (.mk (String.mk nm) none [] :: es, r)
                      | none => none
                    else none
                else if a = '>' then
                  match rest2 with
                  | [] => none
                  | b :: _ =>
                    if b = '<' then
                      match parseElems fuel rest2 with
                      | some (cs, r) =>
                        match eatStr (closeTag (String.mk nm)) r with
                        | some r2 =>
                          match parseElems fuel r2 with
                          | some (es, r3) =>
                            some (.mk (String.mk nm) none cs :: es, r3)
                          | none => none
                        | none => none
                      | none => none
                    else
                      let txt := rest2.takeWhile (fun x => x ≠ '<')
                      let rest4 := rest2.dropWhile (fun x => x ≠ '<')
                      if txt.isEmpty then none
                      else
                        match eatStr (closeTag (String.mk nm)) rest4 with
                        | some r2 =>
                          match parseElems fuel r2 with
                          | some (es, r3) =>
                            some (.mk (String.mk nm) (some (String.mk txt)) [] :: es, r3)
                          | none => none
                        | none => none
                else none
      else some ([], input)

/-- The XML declaration `BoincCodec::decode` strips (src/rpc.rs:67). -/
def xmlDeclChars : List Char :=
  "<?xml version=\"1.0\" encoding=\"ISO-8859-1\" ?>".data

/-- Models Rust `trim_start_matches`: repeatedly strip the declaration. -/
def stripDeclLoop : Nat → List Char → List Char
  | 0, l => l
  | fuel + 1, l =>
    match eatStr xmlDeclChars l with
    | some r => stripDeclLoop fuel r
    | none => l

/-- Strip every leading copy of the XML declaration. -/
def stripDecl (l : List Char) : List Char := stripDeclLoop l.length l

/-- Models `util::parse_node` (src/util.rs:5-11) over the modelled parser:
the input must be exactly one document; anything else is the parse failure
that `From<treexml::Error>` converts into a data-parse error. -/
def parse_node (l : List Char) : Except Error Element :=
  match parseElems (l.length + 1) l with
  | some ([e], []) => .ok e
  | _ => .error (.DataParseError "XML error: parse error")

/-- Models `CodecMode` (src/rpc.rs:25-29). -/
inductive CodecMode where
  | Client
  | Server
  deriving DecidableEq, Repr

/-- The opposite codec role. -/
def CodecMode.opposite : CodecMode → CodecMode
  | .Client => .Server
  | .Server => .Client

/-- The envelope name `encode` wraps payloads in (src/rpc.rs:98-101). -/
def encodeEnvName : CodecMode → String
  | .Client => "boinc_gui_rpc_request"
  | .Server => "boinc_gui_rpc_reply"

/-- The root name `decode` expects (src/rpc.rs:70-73). -/
def decodeExpectedRoot : CodecMode → String
  | .Client => "boinc_gui_rpc_reply"
  | .Server => "boinc_gui_rpc_request"

/-- The frame terminator byte (src/rpc.rs:23). -/
def TERMCHAR : Nat := 3

/-- Models `BoincCodec` (src/rpc.rs:31-44): role plus resume offset. -/
structure BoincCodec where
  mode : CodecMode
  nextIndex : Nat
  deriving DecidableEq, Repr

/-- Models `BoincCodec::new` (src/rpc.rs:38-43). -/
def BoincCodec.init (m : CodecMode) : BoincCodec := ⟨m, 0⟩

/-- Models `Iterator::position` over the scan window: index of the first
terminator byte. -/
def findTerm : List Nat → Option Nat
  | [] => none
  | b :: rest =>
    if b = TERMCHAR then some 0 else (findTerm rest).map (· + 1)

/-- Models `Encoder::encode` (src/rpc.rs:90-117): serialize the envelope
with the payload as children, emit Latin-1 bytes, append the terminator. -/
def BoincCodec.encodeBytes (c : BoincCodec) (item : List Element) : List Nat :=
  (serElem (.mk (encodeEnvName c.mode) none item)).map Char.toNat ++ [TERMCHAR]

/-- The body of `Decoder::decode` after a full frame is available
(src/rpc.rs:59-82): Latin-1 decode (total on bytes), strip the
declaration, parse, check the root, return the root's children. -/
def parseFrame (mode : CodecMode) (line : List Nat) : Except Error (List Element) :=
  let chars := stripDecl (line.map Char.ofNat)
  match parse_node chars with
  | .error e => .error e
  | .ok root =>
    if root.name = decodeExpectedRoot mode then .ok root.children
    else
      .error (.DataParseError
        ("Invalid root: " ++ root.name ++ ". Expected: " ++ decodeExpectedRoot mode))

/-- Models `Decoder::decode` (src/rpc.rs:50-87): scan from `nextIndex` for
the terminator; on a hit reset the offset, split off the frame and parse
it; otherwise remember the scanned length and ask for more data. Returns
the successor codec state, the remaining buffer, and `none` for
"need more data". -/
def BoincCodec.decodeStep (c : BoincCodec) (src : List Nat) :
    BoincCodec × List Nat × Option (Except Error (List Element)) :=
  match findTerm (src.drop c.nextIndex) with
  | some offset =>
    let idx := offset + c.nextIndex
    (⟨c.mode, 0⟩, src.drop (idx + 1), some (parseFrame c.mode (src.take idx)))
  | none => (⟨c.mode, src.length⟩, src, none)

theorem takeWhile_all_append {p : Char → Bool} :
    ∀ (l : List Char) (c : Char) (r : List Char),
      (∀ x ∈ l, p x = true) → p c = false →
      (l ++ c :: r).takeWhile p = l ∧ (l ++ c :: r).dropWhile p = c :: r := by
  intro l
  induction l with
  | nil =>
    intro c r _ hc
    exact ⟨by simp [List.takeWhile_cons, hc], by simp [List.dropWhile_cons, hc]⟩
  | cons x l' ih =>
    intro c r hl hc
    have hx : p x = true := hl x (List.mem_cons_self x l')
    obtain ⟨h1, h2⟩ := ih c r (fun y hy => hl y (List.mem_cons_of_mem x hy)) hc
    exact ⟨by simp [List.takeWhile_cons, hx, h1], by simp [List.dropWhile_cons, hx, h2]⟩

theorem eatStr_self_append : ∀ (l r : List Char), eatStr l (l ++ r) = some r := by
  intro l
  induction l with
  | nil => intro r; rfl
  | cons c cs ih => intro r; simp [eatStr, ih]

theorem serElem_head (e : Element) : ∃ tl, serElem e = '<' :: tl := by
  rcases e with ⟨n, t, cs⟩
  cases t with
  | none =>
    cases cs with
    | nil => exact ⟨n.data ++ ['/', '>'], by simp [serElem]⟩
    | cons c cs' =>
      exact ⟨n.data ++ '>' :: (serList (c :: cs') ++ closeTag n), by simp [serElem]⟩
  | some s =>
    exact ⟨n.data ++ '>' :: ((s.data ++ serList cs) ++ closeTag n), by simp [serElem]⟩

theorem nameChar_spec (c : Char) (h : nameChar c = true) :
    c ≠ '/' ∧ c ≠ '>' ∧ c ≠ '<' := by
  refine ⟨?_, ?_, ?_⟩ <;> intro he <;> rw [he] at h <;> exact absurd h (by decide)

theorem textChar_spec (c : Char) (h : textChar c = true) : c ≠ '<' := by
  intro he
  rw [he] at h
  exact absurd h (by decide)

theorem nameChar_toNat (c : Char) (h : nameChar c = true) : c.toNat ≠ 3 := by
  intro he
  have hc : c = Char.ofNat 3 := by rw [← Char.ofNat_toNat c, he]
  rw [hc] at h
  exact absurd h (by decide)

theorem textChar_toNat (c : Char) (h : textChar c = true) : c.toNat ≠ 3 := by
  intro he
  have hc : c = Char.ofNat 3 := by rw [← Char.ofNat_toNat c, he]
  rw [hc] at h
  exact absurd h (by decide)

mutual

theorem sizeE_le_ser : ∀ e : Element, sizeE e ≤ (serElem e).length
  | .mk n t cs => by
    cases t with
    | none =>
      cases cs with
      | nil => simp [sizeE, sizeL, serElem]
      | cons c cs' =>
        have h := sizeL_le_ser (c :: cs')
        simp only [sizeE, serElem, List.length_cons, List.length_append]
        omega
    | some s =>
      have h := sizeL_le_ser cs
      simp only [sizeE, serElem, List.length_cons, List.length_append]
      omega

theorem sizeL_le_ser : ∀ es : List Element, sizeL es ≤ (serList es).length
  | [] => by simp [sizeL, serList]
  | e :: es => by
    have h1 := sizeE_le_ser e
    have h2 := sizeL_le_ser es
    simp only [sizeL, serList, List.length_append]
    omega

end

mutual

theorem serElem_no_term : ∀ e : Element, safeElem e = true →
    ∀ c ∈ serElem e, c.toNat ≠ 3
  | .mk n t cs => by
    intro hs
    simp only [safeElem, Bool.and_eq_true] at hs
    obtain ⟨⟨-, hname⟩, hbranch⟩ := hs
    have hnm : ∀ x ∈ n.data, x.toNat ≠ 3 := fun x hx =>
      nameChar_toNat x (List.all_eq_true.mp hname x hx)
    cases t with
    | none =>
      cases cs with
      | nil =>
        simp only [serElem, List.forall_mem_cons, List.forall_mem_append]
        and_intros <;> first
          | decide
          | exact hnm
      | cons c0 cs0 =>
        have hrec := serList_no_term (c0 :: cs0) hbranch
        simp only [serElem, closeTag, List.forall_mem_cons, List.forall_mem_append]
        and_intros <;> first
          | decide
          | exact hnm
          | exact hrec
    | some s =>
      simp only [Bool.and_eq_true] at hbranch
      obtain ⟨⟨-, htext⟩, hempty⟩ := hbranch
      have hcs : cs = [] := by
        cases cs with
        | nil => rfl
        | cons a b => exact absurd hempty (by simp)
      subst hcs
      have htx : ∀ x ∈ s.data, x.toNat ≠ 3 := fun x hx =>
        textChar_toNat x (List.all_eq_true.mp htext x hx)
      simp only [serElem, serList, closeTag, List.append_nil,
        List.forall_mem_cons, List.forall_mem_append]
      and_intros <;> first
        | decide
        | exact hnm
        | exact htx

theorem serList_no_term : ∀ es : List Element, safeList es = true →
    ∀ c ∈ serList es, c.toNat ≠ 3
  | [] => by
    intro _ c hc
    simp [serList] at hc
  | e :: es => by
    intro hs
    simp only [safeList, Bool.and_eq_true] at hs
    simp only [serList, List.forall_mem_append]
    exact ⟨serElem_no_term e hs.1, serList_no_term es hs.2⟩

end

theorem parse_serList :
    ∀ (fuel : Nat) (es : List Element) (rest : List Char),
      safeList es = true → sizeL es < fuel →
      (rest = [] ∨ ∃ r, rest = '<' :: '/' :: r) →
      parseElems fuel (serList es ++ rest) = some (es, rest) := by
  intro fuel
  induction fuel with
  | zero => intro es rest _ h _; exact absurd h (Nat.not_lt_zero _)
  | succ fuel ih =>
    intro es rest hsafe hsize htail
    cases es with
    | nil =>
      rcases htail with rfl | ⟨r, rfl⟩
      · simp [serList, parseElems]
      · simp [serList, parseElems]
    | cons e es' =>
      obtain ⟨n, t, cs⟩ := e
      obtain ⟨ndata⟩ := n
      simp only [safeList, Bool.and_eq_true] at hsafe
      obtain ⟨hse, hstail⟩ := hsafe
      simp only [safeElem, Bool.and_eq_true] at hse
      obtain ⟨⟨hne, hnall⟩, hbr⟩ := hse
      cases ndata with
      | nil => simp at hne
      | cons nc ntl =>
        have hall : ∀ x ∈ nc :: ntl, nameChar x = true := by
          intro x hx
          exact List.all_eq_true.mp hnall x hx
        have hnc := hall nc (List.mem_cons_self _ _)
        obtain ⟨hncs, hncg, hncl⟩ := nameChar_spec nc hnc
        have hszs : sizeL es' < fuel ∧ sizeL cs < fuel := by
          simp only [sizeL, sizeE] at hsize
          omega
        cases t with
        | none =>
          cases cs with
          | nil =>
            have hz := ih es' rest hstail hszs.1 htail
            have hshape :
                serList (Element.mk (String.mk (nc :: ntl)) none [] :: es') ++ rest =
                  '<' :: nc :: (ntl ++ '/' :: '>' :: (serList es' ++ rest)) := by
              simp [serList, serElem]
            have htk : (nc :: (ntl ++ '/' :: '>' :: (serList es' ++ rest))).takeWhile nameChar
                = nc :: ntl := by
              have := (takeWhile_all_append (nc :: ntl) '/' ('>' :: (serList es' ++ rest))
                hall (by decide)).1
              simpa using this
            have hdr : (nc :: (ntl ++ '/' :: '>' :: (serList es' ++ rest))).dropWhile nameChar
                = '/' :: '>' :: (serList es' ++ rest) := by
              have := (takeWhile_all_append (nc :: ntl) '/' ('>' :: (serList es' ++ rest))
                hall (by decide)).2
              simpa using this
            rw [hshape]
            simp only [parseElems, htk, hdr, hz, hncs, if_neg, if_pos, List.isEmpty_cons]
            simp
          | cons c0 cs0 =>
            have hcs : safeList (c0 :: cs0) = true := hbr
            obtain ⟨tl0, hhead⟩ := serElem_head c0
            have htail1 : (closeTag (String.mk (nc :: ntl)) ++ (serList es' ++ rest)) =
                '<' :: '/' :: ((nc :: ntl) ++ '>' :: (serList es' ++ rest)) := by
              simp [closeTag]
            have hz1 := ih (c0 :: cs0)
              (closeTag (String.mk (nc :: ntl)) ++ (serList es' ++ rest)) hcs hszs.2
              (Or.inr ⟨(nc :: ntl) ++ '>' :: (serList es' ++ rest), htail1⟩)
            have hz2 := ih es' rest hstail hszs.1 htail
            have heat := eatStr_self_append (closeTag (String.mk (nc :: ntl)))
              (serList es' ++ rest)
            simp only [serList, hhead, List.cons_append, List.append_assoc] at hz1
            have hshape :
                serList (Element.mk (String.mk (nc :: ntl)) none (c0 :: cs0) :: es') ++ rest =
                  '<' :: nc :: (ntl ++ '>' :: '<' :: (tl0 ++
                    (serList cs0 ++ (closeTag (String.mk (nc :: ntl)) ++
                      (serList es' ++ rest))))) := by
              simp [serList, serElem, hhead]
            have htk : (nc :: (ntl ++ '>' :: '<' :: (tl0 ++
                (serList cs0 ++ (closeTag (String.mk (nc :: ntl)) ++
                  (serList es' ++ rest)))))).takeWhile nameChar = nc :: ntl := by
              have := (takeWhile_all_append (nc :: ntl) '>' ('<' :: (tl0 ++
                (serList cs0 ++ (closeTag (String.mk (nc :: ntl)) ++
                  (serList es' ++ rest))))) hall (by decide)).1
              simpa using this
            have hdr : (nc :: (ntl ++ '>' :: '<' :: (tl0 ++
                (serList cs0 ++ (closeTag (String.mk (nc :: ntl)) ++
                  (serList es' ++ rest)))))).dropWhile nameChar
                = '>' :: '<' :: (tl0 ++
                  (serList cs0 ++ (closeTag (String.mk (nc :: ntl)) ++
                    (serList es' ++ rest)))) := by
              have := (takeWhile_all_append (nc :: ntl) '>' ('<' :: (tl0 ++
                (serList cs0 ++ (closeTag (String.mk (nc :: ntl)) ++
                  (serList es' ++ rest))))) hall (by decide)).2
              simpa using this
            rw [hshape]
            simp only [parseElems, htk, hdr, hncs, hncg, if_neg, if_pos,
              List.isEmpty_cons, hz1, heat, hz2]
            simp
        | some s =>
          obtain ⟨sdata⟩ := s
          have hbr' : (!(String.mk sdata).data.isEmpty &&
              ((String.mk sdata).data.all textChar && cs.isEmpty)) = true := by
            simpa [Bool.and_assoc] using hbr
          simp only [Bool.and_eq_true] at hbr'
          obtain ⟨hsne, hsall', hcse⟩ := hbr'
          have hcs : cs = [] := by
            cases cs with
            | nil => rfl
            | cons a b => exact absurd hcse (by simp)
          subst hcs
          cases sdata with
          | nil => simp at hsne
          | cons sc stl =>
            have hsall : ∀ x ∈ sc :: stl, textChar x = true := by
              intro x hx
              exact List.all_eq_true.mp hsall' x hx
            have hscl : sc ≠ '<' := textChar_spec sc (hsall sc (List.mem_cons_self _ _))
            have hz2 := ih es' rest hstail hszs.1 htail
            have heat := eatStr_self_append (closeTag (String.mk (nc :: ntl)))
              (serList es' ++ rest)
            have hshape :
                serList (Element.mk (String.mk (nc :: ntl))
                    (some (String.mk (sc :: stl))) [] :: es') ++ rest =
                  '<' :: nc :: (ntl ++ '>' :: (sc :: (stl ++
                    (closeTag (String.mk (nc :: ntl)) ++ (serList es' ++ rest))))) := by
              simp [serList, serElem]
            have htk : (nc :: (ntl ++ '>' :: (sc :: (stl ++
                (closeTag (String.mk (nc :: ntl)) ++
                  (serList es' ++ rest)))))).takeWhile nameChar = nc :: ntl := by
              have := (takeWhile_all_append (nc :: ntl) '>' (sc :: (stl ++
                (closeTag (String.mk (nc :: ntl)) ++ (serList es' ++ rest))))
                hall (by decide)).1
              simpa using this
            have hdr : (nc :: (ntl ++ '>' :: (sc :: (stl ++
                (closeTag (String.mk (nc :: ntl)) ++
                  (serList es' ++ rest)))))).dropWhile nameChar
                = '>' :: (sc :: (stl ++ (closeTag (String.mk (nc :: ntl)) ++
                  (serList es' ++ rest)))) := by
              have := (takeWhile_all_append (nc :: ntl) '>' (sc :: (stl ++
                (closeTag (String.mk (nc :: ntl)) ++ (serList es' ++ rest))))
                hall (by decide)).2
              simpa using this
            have hsall2 : ∀ x ∈ sc :: stl, (fun x => x ≠ '<' : Char → Bool) x = true := by
              intro x hx
              exact decide_eq_true (textChar_spec x (hsall x hx))
            have httk : (sc :: (stl ++ (closeTag (String.mk (nc :: ntl)) ++
                (serList es' ++ rest)))).takeWhile (fun x => x ≠ '<') = sc :: stl := by
              have h1 : closeTag (String.mk (nc :: ntl)) ++ (serList es' ++ rest) =
                  '<' :: ('/' :: ((nc :: ntl) ++ '>' :: (serList es' ++ rest))) := by
                simp [closeTag]
              rw [h1]
              have := (takeWhile_all_append (sc :: stl) '<'
                ('/' :: ((nc :: ntl) ++ '>' :: (serList es' ++ rest))) hsall2 (by decide)).1
              simpa using this
            have htdr : (sc :: (stl ++ (closeTag (String.mk (nc :: ntl)) ++
                (serList es' ++ rest)))).dropWhile (fun x => x ≠ '<')
                = closeTag (String.mk (nc :: ntl)) ++ (serList es' ++ rest) := by
              have h1 : closeTag (String.mk (nc :: ntl)) ++ (serList es' ++ rest) =
                  '<' :: ('/' :: ((nc :: ntl) ++ '>' :: (serList es' ++ rest))) := by
                simp [closeTag]
              rw [h1]
              have := (takeWhile_all_append (sc :: stl) '<'
                ('/' :: ((nc :: ntl) ++ '>' :: (serList es' ++ rest))) hsall2 (by decide)).2
              simpa using this
            rw [hshape]
            simp only [parseElems, htk, hdr, httk, htdr, hncs, hncg, hscl, if_neg, if_pos,
              List.isEmpty_cons, heat, hz2]
            simp

theorem stripDecl_no_match (l : List Char) (h : eatStr xmlDeclChars l = none) :
    stripDecl l = l := by
  cases hn : l.length with
  | zero => simp [stripDecl, hn, stripDeclLoop]
  | succ k => simp [stripDecl, hn, stripDeclLoop, h]

theorem eatStr_decl (c2 : Char) (h : c2 ≠ '?') (l : List Char) :
    eatStr xmlDeclChars ('<' :: c2 :: l) = none := by
  have hd : xmlDeclChars =
      '<' :: '?' :: "xml version=\"1.0\" encoding=\"ISO-8859-1\" ?>".data := by decide
  rw [hd]
  simp [eatStr, Ne.symm h]

theorem serElem_two (n : String) (t : Option String) (cs : List Element)
    (nc : Char) (ntl : List Char) (hd : n.data = nc :: ntl) :
    ∃ u, serElem (.mk n t cs) = '<' :: nc :: u := by
  cases t with
  | none =>
    cases cs with
    | nil => exact ⟨ntl ++ ['/', '>'], by simp [serElem, hd]⟩
    | cons c cs' =>
      exact ⟨ntl ++ '>' :: (serList (c :: cs') ++ closeTag n), by simp [serElem, hd]⟩
  | some s =>
    exact ⟨ntl ++ '>' :: ((s.data ++ serList cs) ++ closeTag n), by simp [serElem, hd]⟩

theorem findTerm_append (l r : List Nat) (hl : ∀ x ∈ l, x ≠ TERMCHAR) :
    findTerm (l ++ r) = (findTerm r).map (· + l.length) := by
  induction l with
  | nil =>
    simp only [List.nil_append, List.length_nil]
    cases findTerm r with
    | none => rfl
    | some k => simp
  | cons x l' ih =>
    have hx : x ≠ TERMCHAR := hl x (List.mem_cons_self _ _)
    rw [List.cons_append, findTerm, if_neg hx,
      ih (fun y hy => hl y (List.mem_cons_of_mem x hy))]
    cases findTerm r with
    | none => rfl
    | some k =>
      simp only [Option.map_some', List.length_cons, Option.some.injEq]
      omega

theorem findTerm_none (l : List Nat) (hl : ∀ x ∈ l, x ≠ TERMCHAR) :
    findTerm l = none := by
  have h := findTerm_append l [] hl
  simpa [findTerm] using h

theorem env_safe (m : CodecMode) (children : List Element)
    (h : safeList children = true) :
    safeElem (Element.mk (encodeEnvName m) none children) = true := by
  cases m <;>
    (simp only [encodeEnvName, safeElem, Bool.and_eq_true]; exact ⟨by decide, h⟩)

theorem decode_root_of_encode (m : CodecMode) :
    decodeExpectedRoot m.opposite = encodeEnvName m := by
  cases m <;> rfl

/-- C5. Framing round-trip: for every sequence of child nodes with
ASCII-safe content, encoding with the codec in one role and decoding the
produced bytes with the codec in the opposite role yields exactly the same
child sequence, consuming the whole frame. -/
theorem c5_codec_round_trip (m : CodecMode) (children : List Element)
    (h : safeList children = true) :
    BoincCodec.decodeStep (BoincCodec.init m.opposite)
        (BoincCodec.encodeBytes (BoincCodec.init m) children) =
      (BoincCodec.init m.opposite, [], some (.ok children)) := by
  have hsafeE : safeElem (Element.mk (encodeEnvName m) none children) = true :=
    env_safe m children h
  have hnoterm : ∀ b ∈ (serElem (Element.mk (encodeEnvName m) none children)).map
      Char.toNat, b ≠ TERMCHAR := by
    intro b hb
    obtain ⟨c, hc, rfl⟩ := List.mem_map.mp hb
    have := serElem_no_term (Element.mk (encodeEnvName m) none children) hsafeE c hc
    simpa [TERMCHAR] using this
  have hft : findTerm ((serElem (Element.mk (encodeEnvName m) none children)).map
        Char.toNat ++ [TERMCHAR]) =
      some ((serElem (Element.mk (encodeEnvName m) none children)).map
        Char.toNat).length := by
    rw [findTerm_append _ _ hnoterm]
    simp [findTerm]
  have hmap : ((serElem (Element.mk (encodeEnvName m) none children)).map
      Char.toNat).map Char.ofNat =
      serElem (Element.mk (encodeEnvName m) none children) := by
    rw [List.map_map]
    have hco : (Char.ofNat ∘ Char.toNat) = id := funext Char.ofNat_toNat
    rw [hco, List.map_id]
  have hdch : (encodeEnvName m).data = 'b' ::
      ("oinc_gui_rpc_request".data : List Char) ∨
      (encodeEnvName m).data = 'b' :: ("oinc_gui_rpc_reply".data : List Char) := by
    cases m
    · exact Or.inl (by decide)
    · exact Or.inr (by decide)
  have hstrip : stripDecl (serElem (Element.mk (encodeEnvName m) none children)) =
      serElem (Element.mk (encodeEnvName m) none children) := by
    rcases hdch with hd | hd
    all_goals {
      obtain ⟨u, hu⟩ := serElem_two (encodeEnvName m) none children 'b' _ hd
      apply stripDecl_no_match
      rw [hu]
      exact eatStr_decl 'b' (by decide) u
    }
  have hsz : sizeL [Element.mk (encodeEnvName m) none children] <
      (serElem (Element.mk (encodeEnvName m) none children)).length + 1 := by
    have h1 := sizeE_le_ser (Element.mk (encodeEnvName m) none children)
    simp only [sizeL]
    omega
  have hps : parseElems
      ((serElem (Element.mk (encodeEnvName m) none children)).length + 1)
      (serElem (Element.mk (encodeEnvName m) none children)) =
      some ([Element.mk (encodeEnvName m) none children], []) := by
    have h1 := parse_serList
      ((serElem (Element.mk (encodeEnvName m) none children)).length + 1)
      [Element.mk (encodeEnvName m) none children] []
      (by simp [safeList, hsafeE]) hsz (Or.inl rfl)
    simpa [serList] using h1
  have hpn : parse_node (serElem (Element.mk (encodeEnvName m) none children)) =
      .ok (Element.mk (encodeEnvName m) none children) := by
    simp [parse_node, hps]
  have hpf : parseFrame m.opposite
      ((serElem (Element.mk (encodeEnvName m) none children)).map Char.toNat) =
      .ok children := by
    have hroot : (Element.mk (encodeEnvName m) none children).name =
        decodeExpectedRoot m.opposite := (decode_root_of_encode m).symm
    simp only [parseFrame, hmap, hstrip, hpn]
    rw [if_pos hroot]
    rfl
  show BoincCodec.decodeStep _ _ = _
  simp only [BoincCodec.encodeBytes, BoincCodec.init, BoincCodec.decodeStep,
    List.drop_zero, hft]
  refine Prod.ext ?_ (Prod.ext ?_ ?_)
  · rfl
  · show ((serElem (Element.mk (encodeEnvName m) none children)).map Char.toNat
        ++ [TERMCHAR]).drop
      (((serElem (Element.mk (encodeEnvName m) none children)).map Char.toNat).length
        + 0 + 1) = []
    have hlen : ((serElem (Element.mk (encodeEnvName m) none children)).map
        Char.toNat).length + 0 + 1 =
        ((serElem (Element.mk (encodeEnvName m) none children)).map Char.toNat
          ++ [TERMCHAR]).length := by
      simp
    rw [hlen, List.drop_length]
  · show some (parseFrame m.opposite
      (((serElem (Element.mk (encodeEnvName m) none children)).map Char.toNat
        ++ [TERMCHAR]).take
        (((serElem (Element.mk (encodeEnvName m) none children)).map
          Char.toNat).length + 0))) = some (.ok children)
    rw [Nat.add_zero, List.take_left, hpf]

/-- C5 witness: a concrete two-child payload round-trips through the codec. -/
theorem c5_codec_round_trip_witness :
    safeList [Element.mk "project" (some "hello world") [], Element.new "success"]
        = true ∧
      BoincCodec.decodeStep (BoincCodec.init CodecMode.Client.opposite)
          (BoincCodec.encodeBytes (BoincCodec.init CodecMode.Client)
            [Element.mk "project" (some "hello world") [], Element.new "success"]) =
        (BoincCodec.init CodecMode.Client.opposite, [],
          some (.ok [Element.mk "project" (some "hello world") [],
            Element.new "success"])) :=
  ⟨by decide,
    c5_codec_round_trip CodecMode.Client
      [Element.mk "project" (some "hello world") [], Element.new "success"]
      (by decide)⟩

theorem decode_resume (m : CodecMode) (p1 p2 : List Nat)
    (h : ∀ b ∈ p1, b ≠ TERMCHAR) :
    BoincCodec.decodeStep ⟨m, 0⟩ p1 = (⟨m, p1.length⟩, p1, none) ∧
      BoincCodec.decodeStep ⟨m, p1.length⟩ (p1 ++ p2) =
        BoincCodec.decodeStep ⟨m, 0⟩ (p1 ++ p2) := by
  constructor
  · simp [BoincCodec.decodeStep, findTerm_none p1 h]
  · simp only [BoincCodec.decodeStep, List.drop_zero, List.drop_left,
      findTerm_append p1 p2 h]
    cases hf : findTerm p2 with
    | none => simp
    | some k => simp [Nat.add_assoc, Nat.add_comm]

/-- C6. Partial-read resumability: splitting an encoded frame at any
byte boundary short of the terminator, the first decode call returns
"need more data" and records the scanned length as the resume offset, and
a second decode call over the completed buffer yields exactly the result
of decoding the whole frame at once — the decoded children. -/
theorem c6_partial_read_resume (m : CodecMode) (children : List Element) (i : Nat)
    (hs : safeList children = true)
    (hi : i < (BoincCodec.encodeBytes (BoincCodec.init m) children).length) :
    BoincCodec.decodeStep (BoincCodec.init m.opposite)
        ((BoincCodec.encodeBytes (BoincCodec.init m) children).take i) =
      (⟨m.opposite, i⟩,
        (BoincCodec.encodeBytes (BoincCodec.init m) children).take i, none) ∧
    BoincCodec.decodeStep ⟨m.opposite, i⟩
        ((BoincCodec.encodeBytes (BoincCodec.init m) children).take i ++
          (BoincCodec.encodeBytes (BoincCodec.init m) children).drop i) =
      BoincCodec.decodeStep (BoincCodec.init m.opposite)
        (BoincCodec.encodeBytes (BoincCodec.init m) children) ∧
    BoincCodec.decodeStep ⟨m.opposite, i⟩
        ((BoincCodec.encodeBytes (BoincCodec.init m) children).take i ++
          (BoincCodec.encodeBytes (BoincCodec.init m) children).drop i) =
      (BoincCodec.init m.opposite, [], some (.ok children)) := by
  have hsafeE : safeElem (Element.mk (encodeEnvName m) none children) = true :=
    env_safe m children hs
  have hile : i ≤ ((serElem (Element.mk (encodeEnvName m) none children)).map
      Char.toNat).length := by
    have : (BoincCodec.encodeBytes (BoincCodec.init m) children).length =
        ((serElem (Element.mk (encodeEnvName m) none children)).map
          Char.toNat).length + 1 := by
      simp [BoincCodec.encodeBytes, BoincCodec.init]
    omega
  have hnoterm : ∀ b ∈ (BoincCodec.encodeBytes (BoincCodec.init m) children).take i,
      b ≠ TERMCHAR := by
    intro b hb
    have hb2 : b ∈ ((serElem (Element.mk (encodeEnvName m) none children)).map
        Char.toNat).take i := by
      have heq : (BoincCodec.encodeBytes (BoincCodec.init m) children).take i =
          ((serElem (Element.mk (encodeEnvName m) none children)).map
            Char.toNat).take i := by
        simp only [BoincCodec.encodeBytes, BoincCodec.init]
        exact List.take_append_of_le_length hile
      rwa [heq] at hb
    have hb3 := List.take_subset i _ hb2
    obtain ⟨c, hc, rfl⟩ := List.mem_map.mp hb3
    have := serElem_no_term (Element.mk (encodeEnvName m) none children) hsafeE c hc
    simpa [TERMCHAR] using this
  have hlen : ((BoincCodec.encodeBytes (BoincCodec.init m) children).take i).length
      = i := by
    simp only [List.length_take]
    exact Nat.min_eq_left (Nat.le_of_lt hi)
  have hres := decode_resume m.opposite
    ((BoincCodec.encodeBytes (BoincCodec.init m) children).take i)
    ((BoincCodec.encodeBytes (BoincCodec.init m) children).drop i) hnoterm
  have hsplit : (BoincCodec.encodeBytes (BoincCodec.init m) children).take i ++
      (BoincCodec.encodeBytes (BoincCodec.init m) children).drop i =
      BoincCodec.encodeBytes (BoincCodec.init m) children :=
    List.take_append_drop i _
  refine ⟨?_, ?_, ?_⟩
  · have h1 := hres.1
    rw [hlen] at h1
    exact h1
  · have h2 := hres.2
    rw [hlen] at h2
    rw [hsplit]
    rw [hsplit] at h2
    exact h2
  · have h2 := hres.2
    rw [hlen] at h2
    rw [hsplit]
    rw [hsplit] at h2
    rw [h2]
    exact c5_codec_round_trip m children hs

/-- C6 witness: one concrete frame split after five bytes resumes
correctly and matches whole-frame decoding. -/
theorem c6_partial_read_resume_witness :
    (safeList [Element.new "auth1"] = true ∧
      5 < (BoincCodec.encodeBytes (BoincCodec.init CodecMode.Client)
        [Element.new "auth1"]).length) ∧
    BoincCodec.decodeStep ⟨CodecMode.Client.opposite, 5⟩
        ((BoincCodec.encodeBytes (BoincCodec.init CodecMode.Client)
            [Element.new "auth1"]).take 5 ++
          (BoincCodec.encodeBytes (BoincCodec.init CodecMode.Client)
            [Element.new "auth1"]).drop 5) =
      (BoincCodec.init CodecMode.Client.opposite, [],
        some (.ok [Element.new "auth1"])) :=
  ⟨⟨by decide, by decide⟩,
    (c6_partial_read_resume CodecMode.Client [Element.new "auth1"] 5
      (by decide) (by decide)).2.2⟩

/-- C9 counterexample: a zero-length frame — a terminator byte with no
preceding data — is NOT accepted: the empty document fails XML parsing and
decode surfaces a data-parse error instead of `Ok` with an empty child
list. -/
theorem c9_zero_length_counterexample :
    BoincCodec.decodeStep (BoincCodec.init .Client) [3] =
      (BoincCodec.init .Client, [],
        some (.error (.DataParseError "XML error: parse error"))) := by decide

/-- C9 amended: a zero-length frame is rejected with a data-parse error;
a frame holding just an empty envelope (explicit or self-closing) decodes
to an empty child list; and an envelope name mismatch still fails with a
data-parse error naming both roots. -/
theorem c9_zero_length_amended :
    BoincCodec.decodeStep (BoincCodec.init .Client) [3] =
      (BoincCodec.init .Client, [],
        some (.error (.DataParseError "XML error: parse error"))) ∧
    BoincCodec.decodeStep (BoincCodec.init .Client)
        (("<boinc_gui_rpc_reply></boinc_gui_rpc_reply>".data.map Char.toNat) ++ [3]) =
      (BoincCodec.init .Client, [], some (.ok [])) ∧
    BoincCodec.decodeStep (BoincCodec.init .Client)
        (("<boinc_gui_rpc_reply/>".data.map Char.toNat) ++ [3]) =
      (BoincCodec.init .Client, [], some (.ok [])) ∧
    BoincCodec.decodeStep (BoincCodec.init .Client)
        (("<wrong/>".data.map Char.toNat) ++ [3]) =
      (BoincCodec.init .Client, [],
        some (.error (.DataParseError
          "Invalid root: wrong. Expected: boinc_gui_rpc_reply"))) :=
  ⟨by decide, by decide, by decide, by decide⟩

/-!
Session/transport state machine: `ConnState` and the `tower::Service`
impl for `Transport` (src/lib.rs:280-352). The pinned connect future is
modelled by its eventual resolution (the `Poll::Pending` arm of
`poll_ready` only re-stores the same future, so the state transitions
depend only on the resolved outcome). `Except.ok ()` stands for a ready
`DaemonStream`.
-/

/-- Models `ConnState` (src/lib.rs:280-284); the `Connecting` future is
carried as its eventual outcome. -/
inductive ConnStateM where
  | connecting (outcome : Except Error Unit)
  | ready
  | error (e : Error)
  deriving DecidableEq

/-- What one `poll_ready` call observes; `panic` models the `.unwrap()`
on an empty state slot (src/lib.rs:313). -/
inductive PollOut where
  | ok
  | err (e : Error)
  | panic
  deriving DecidableEq

/-- Models `Transport::poll_ready` (src/lib.rs:307-331): take the state
slot (`unwrap` panics if it is empty), drive the connect future or report
the stored state, and write the successor state back — `None` when the
future resolved with an error (src/lib.rs:319). -/
def pollReadyStep : Option ConnStateM → Option ConnStateM × PollOut
  | none => (none, .panic)
  | some (.connecting (.ok _)) => (some .ready, .ok)
  | some (.connecting (.error e)) => (none, .err e)
  | some .ready => (some .ready, .ok)
  | some (.error e) => (some (.error e), .err e)

/-- What one `call` returns; `panic` models the `unreachable!()` arm
(src/lib.rs:340). -/
inductive CallOut where
  | res (r : Except Error (List Element))
  | panic
  deriving DecidableEq

/-- Models `Transport::call` (src/lib.rs:333-351) with the outcome of
`conn.query` abstracted as an argument: the `Ready` connection is taken
out of the slot; a failing query stores `ConnState::Error` back and the
exact error is returned, while a successful query leaves the slot empty. -/
def callStep (st : Option ConnStateM)
    (queryResult : Except Error (List Element)) : Option ConnStateM × CallOut :=
  match st with
  | some .ready =>
    match queryResult with
    | .error e => (some (.error e), .res (.error e))
    | .ok xs => (none, .res (.ok xs))
  | st => (st, .panic)

/-- Models `Transport::new` (src/lib.rs:291-299): the slot starts as
`Connecting` holding the one connect future built at construction — no
code path ever builds a second one. The script lists the outcomes that
successive connect attempts would have; only the head is ever consumed. -/
def Transport.newState (connectOutcomes : List (Except Error Unit)) :
    Option ConnStateM :=
  some (.connecting (connectOutcomes.headD (.error (.DaemonError "no script"))))

/-- The per-operation client path (`Client::get_object` and friends,
src/lib.rs:366-380): `transport.ready().await?` — which polls
`poll_ready` and propagates its error — followed by `transport.call`. -/
def clientCallOnce (st : Option ConnStateM)
    (queryResult : Except Error (List Element)) : Option ConnStateM × CallOut :=
  match pollReadyStep st with
  | (st1, .ok) => callStep st1 queryResult
  | (st1, .err e) => (st1, .res (.error e))
  | (st1, .panic) => (st1, .panic)

/-- C4 counterexample: a non-network failure (a data-parse error from a
malformed reply) does poison the session: `call` stores the terminal
`Error` state, the slot is no longer `Ready`, and the next readiness poll
reports the stored error instead of the connection being usable. -/
theorem c4_nonnetwork_poisons_counterexample :
    callStep (some .ready) (.error (.DataParseError "Invalid data received")) =
      (some (.error (.DataParseError "Invalid data received")),
        .res (.error (.DataParseError "Invalid data received"))) ∧
    (callStep (some .ready) (.error (.DataParseError "Invalid data received"))).1 ≠
      some .ready ∧
    pollReadyStep
        (callStep (some .ready)
          (.error (.DataParseError "Invalid data received"))).1 =
      (some (.error (.DataParseError "Invalid data received")),
        .err (.DataParseError "Invalid data received")) := by decide

/-- C4 amended: any failing query — network-class or not — transitions the
session slot to the terminal `Error` state carrying that exact error and
returns that exact error, and every later readiness poll reports the same
stored error; a successful query returns its frames (leaving the slot
empty, see the C8 analysis). -/
theorem c4_any_error_poisons (e : Error) (xs : List Element) :
    callStep (some .ready) (.error e) = (some (.error e), .res (.error e)) ∧
      pollReadyStep (some (.error e)) = (some (.error e), .err e) ∧
      callStep (some .ready) (.ok xs) = (none, .res (.ok xs)) :=
  ⟨rfl, rfl, rfl⟩

/-- C8 failing input: when `poll_ready` reports a connection-establishment
failure it leaves the state slot empty, so the very next `poll_ready`
panics on its `unwrap` — repeated polling is not safe there, although the
`ConnState::Error` arm built for re-polling would have made it so. -/
theorem c8_poll_after_failure_panics :
    pollReadyStep
        (some (.connecting (.error (.NetworkError "connection refused")))) =
      (none, .err (.NetworkError "connection refused")) ∧
    pollReadyStep
        (pollReadyStep
          (some (.connecting (.error (.NetworkError "connection refused"))))).1 =
      (none, .panic) := by decide

/-- C7 counterexample: with a connect script failing with a network error
twice before succeeding, the call façade does not succeed — it returns the
first network error unchanged: there is no `max_retries` facility, the
operation is attempted once, and the session is never rebuilt (the model
shows the script's tail is unreachable: no second connect exists). -/
theorem c7_no_retry_counterexample :
    clientCallOnce
        (Transport.newState
          [.error (.NetworkError "refused"), .error (.NetworkError "refused"),
            .ok ()])
        (.ok [Element.new "success"]) =
      (none, .res (.error (.NetworkError "refused"))) ∧
    (clientCallOnce
        (Transport.newState
          [.error (.NetworkError "refused"), .error (.NetworkError "refused"),
            .ok ()])
        (.ok [Element.new "success"])).2 ≠
      .res (.ok [Element.new "success"]) := by decide

/-- C7 amended: the transport retries nothing: the one connect future is
built at construction; if it resolves with any error the operation
returns exactly that error and no re-handshake happens — the remainder of
the connect script is never consumed — and if it resolves successfully
the operation runs exactly once against the ready session. -/
theorem c7_single_attempt (e : Error) (tail : List (Except Error Unit))
    (q : Except Error (List Element)) :
    clientCallOnce (Transport.newState (.error e :: tail)) q =
        (none, .res (.error e)) ∧
      clientCallOnce (Transport.newState (.ok () :: tail)) q =
        callStep (some .ready) q :=
  ⟨rfl, rfl⟩

/-- Models `models::VersionInfo` (src/models.rs:46-51). -/
structure VersionInfo where
  major : Option Int
  minor : Option Int
  release : Option Int
  deriving DecidableEq

/-- Models the request construction in `Client::exchange_versions`
(src/lib.rs:503-524), which writes `info.minor` under the element named
`major` and `info.major` under the element named `minor`. -/
def exchangeVersionsRequest (info : VersionInfo) : Element :=
  .mk "exchange_versions" none
    [.mk "major" (info.minor.map (fun v => toString v)) [],
      .mk "minor" (info.major.map (fun v => toString v)) [],
      .mk "release" (info.release.map (fun v => toString v)) []]

/-- First child with the given name. -/
def findChild (e : Element) (n : String) : Option Element :=
  e.children.find? (fun c => c.name = n)

/-- C10. For every `VersionInfo`, the `exchange_versions` request frame
carries the caller's `minor` as the text of the element named `major` and
the caller's `major` as the text of the element named `minor` — the two
fields are swapped — while `release` is placed under `release`. -/
theorem c10_exchange_versions_swapped (info : VersionInfo) :
    (findChild (exchangeVersionsRequest info) "major").map Element.text =
        some (info.minor.map (fun v => toString v)) ∧
      (findChild (exchangeVersionsRequest info) "minor").map Element.text =
        some (info.major.map (fun v => toString v)) ∧
      (findChild (exchangeVersionsRequest info) "release").map Element.text =
        some (info.release.map (fun v => toString v)) := by
  refine ⟨?_, ?_, ?_⟩ <;>
    simp [findChild, exchangeVersionsRequest, Element.name, Element.text,
      List.find?]
